import Mathlib

/-!
Verification of the NeonMoon-infoBot repository: a shallow embedding, in
Lean 4, of the reminder scheduler, the streaming LLM relay, and the two
response chunkers, together with theorems settling the specification
claims against the code.

JS strings are modelled as `List Char`; SQLite TEXT values that are only
ever compared with the BINARY collation (bytewise `memcmp`) are modelled
as `List Nat` of byte values.  Loops whose JS form is `while` are
embedded with an explicit fuel argument so that every definition is
executable by the kernel; the fuel passed by each wrapper is always
sufficient for the inputs the program can reach (each iteration consumes
at least one character), and fuel-congruence lemmas are proved where a
theorem needs to reason about the loop generically.
-/

namespace Ollama

/-- Loop body of `chunkDiscordMessage` from `src/llm/ollama.js`:
`while (remaining.length > maxLen) { chunks.push(remaining.slice(0, maxLen));
remaining = remaining.slice(maxLen); } if (remaining) chunks.push(remaining);`.
The fuel argument makes the `while` loop structural; `text.length` fuel is
sufficient whenever `maxLen ≥ 1`. -/
def chunkAux : Nat → List Char → Nat → List (List Char)
  | 0, remaining, _ => if remaining.isEmpty then [] else [remaining]
  | fuel + 1, remaining, maxLen =>
    if maxLen < remaining.length then
      remaining.take maxLen :: chunkAux fuel (remaining.drop maxLen) maxLen
    else if remaining.isEmpty then [] else [remaining]

/-- `chunkDiscordMessage(text, maxLen = 1900)` from `src/llm/ollama.js`
(the chunker that `src/index.js` imports): repeatedly slices off the
first `maxLen` characters, then pushes the non-empty remainder. -/
def chunkDiscordMessage (text : List Char) (maxLen : Nat) : List (List Char) :=
  chunkAux text.length text maxLen

end Ollama

namespace OllamaLib

/-- The JS whitespace characters relevant to this repository's data
(`trimStart` / `trimEnd` are modelled on the ASCII whitespace subset). -/
def isJsWs (c : Char) : Bool := c = ' ' || c = '\t' || c = '\n' || c = '\r'

/-- JS `String.prototype.trimStart`. -/
def jsTrimStart (s : List Char) : List Char := s.dropWhile isJsWs

/-- JS `String.prototype.trimEnd`. -/
def jsTrimEnd (s : List Char) : List Char := (s.reverse.dropWhile isJsWs).reverse

/-- Scanner for `lastIndexOf`: the largest index `j ≤ limit` at which
`pat` occurs in the scanned list, `none` mirroring JS's `-1`. -/
def lastIdxGo (pat : List Char) (limit : Nat) : List Char → Nat → Option Nat → Option Nat
  | [], _, best => best
  | c :: rest, j, best =>
    if limit < j then best
    else lastIdxGo pat limit rest (j + 1) (if pat.isPrefixOf (c :: rest) then some j else best)

/-- JS `s.lastIndexOf(pat, limit)` (for non-empty `pat`). -/
def lastIndexOf (s pat : List Char) (limit : Nat) : Option Nat := lastIdxGo pat limit s 0 none

/-- JS `Math.floor(maxLen * 0.6)` as used by `chunkDiscordMessage` in
`src/unnamed/part_001`; at the deployed `maxLen = 1900` the floating-point
product rounds to exactly `1140 = 1900 * 6 / 10`. -/
def floor06 (maxLen : Nat) : Nat := maxLen * 6 / 10

/-- `String(text).split(/\n{2,}/)`: split on maximal runs of two or more
newlines.  Fuel is the length of the scanned list.  A separator starts
where the current character and the next are both newlines; the greedy
`{2,}` then consumes the whole newline run (`dropWhile` on the tail,
which still begins with the second newline of the pair). -/
def splitParasAux : Nat → List Char → List (List Char)
  | 0, s => [s]
  | fuel + 1, s =>
    match s with
    | [] => [[]]
    | c :: rest =>
      if c = '\n' ∧ rest.head? = some '\n' then
        [] :: splitParasAux fuel (rest.dropWhile (fun d => d = '\n'))
      else
        match splitParasAux fuel rest with
        | [] => [[c]]
        | l :: ls => (c :: l) :: ls

def splitParas (s : List Char) : List (List Char) := splitParasAux s.length s

/-- The `cut` computed by `pushSmart` in `src/unnamed/part_001` before the
minimum-fill adjustment: try `'\n\n'`, then `'\n'`, then `' '`, else `-1`. -/
def cutIndex (segment : List Char) (maxLen : Nat) : Int :=
  match lastIndexOf segment ['\n', '\n'] maxLen with
  | some i => (i : Int)
  | none =>
    match lastIndexOf segment ['\n'] maxLen with
    | some i => (i : Int)
    | none =>
      match lastIndexOf segment [' '] maxLen with
      | some i => (i : Int)
      | none => -1

/-- The `pushSmart` loop of `chunkDiscordMessage` in `src/unnamed/part_001`:
while the segment exceeds `maxLen`, cut at the preferred break point (hard
cut at `maxLen` when the break point is below `floor(maxLen * 0.6)`), push
the `trimEnd`-ed head and continue with the `trimStart`-ed tail; finally
push the non-empty remainder. -/
def pushSmartAux (maxLen : Nat) : Nat → List Char → List (List Char) → List (List Char)
  | 0, segment, chunks => if segment.isEmpty then chunks else chunks ++ [segment]
  | fuel + 1, segment, chunks =>
    if maxLen < segment.length then
      let cut0 := cutIndex segment maxLen
      let cut : Int := if cut0 < (floor06 maxLen : Int) then (maxLen : Int) else cut0
      pushSmartAux maxLen fuel (jsTrimStart (segment.drop cut.toNat))
        (chunks ++ [jsTrimEnd (segment.take cut.toNat)])
    else if segment.isEmpty then chunks else chunks ++ [segment]

/-- `chunkDiscordMessage(text, maxLen = 1900)` from `src/unnamed/part_001`
(the paragraph/line/word-boundary chunker; not the one `src/index.js`
imports): `if (!text) return ['']`, else run `pushSmart` over the
paragraphs of the input. -/
def chunkDiscordMessage (text : List Char) (maxLen : Nat) : List (List Char) :=
  if text.isEmpty then [[]]
  else (splitParas text).foldl (fun chunks para => pushSmartAux maxLen para.length para chunks) []

end OllamaLib


namespace Lunacore

/-- The literal fallback fragment that `lunaChatStream` in
`src/llm/lunacore.js` yields when it sees an `event: error` frame. -/
def fallbackMessage : List Char :=
  "I\x27m having trouble connecting to the main server, can someone help me ping Skeath?".data

/-- JS `String.prototype.trim` (both ends), on the ASCII whitespace
subset relevant here; used for `rawLine.slice(6).trim()`. -/
def jsTrim (s : List Char) : List Char := OllamaLib.jsTrimEnd (OllamaLib.jsTrimStart s)

/-- `frame.split(/\r?\n/)`: split a frame into lines, each separator
being a newline with an optional preceding carriage return. -/
def splitRN : List Char → List (List Char)
  | [] => [[]]
  | '\r' :: '\n' :: rest => [] :: splitRN rest
  | '\n' :: rest => [] :: splitRN rest
  | c :: rest =>
    match splitRN rest with
    | [] => [[c]]
    | l :: ls => (c :: l) :: ls

/-- The characters of the line marker `event:` tested by
`rawLine.startsWith` in `lunaChatStream`. -/
def evTag : List Char := ['e', 'v', 'e', 'n', 't', ':']

/-- The characters of the line marker `data:`. -/
def dataTag : List Char := ['d', 'a', 't', 'a', ':']

/-- `if (payload.startsWith(' ')) payload = payload.slice(1)`: strip
exactly one optional leading space from a data payload. -/
def stripOneSpace (payload : List Char) : List Char :=
  match payload with
  | ' ' :: rest => rest
  | _ => payload

/-- One iteration of the frame-parsing `for` loop in `lunaChatStream`:
an `event:` line replaces the event kind (trimmed), a `data:` line
appends its payload (after the one-space strip), anything else is
ignored. -/
def parseStep (acc : List Char × List (List Char)) (rawLine : List Char) :
    List Char × List (List Char) :=
  if evTag.isPrefixOf rawLine then (jsTrim (rawLine.drop 6), acc.2)
  else if dataTag.isPrefixOf rawLine then (acc.1, acc.2 ++ [stripOneSpace (rawLine.drop 5)])
  else acc

/-- Parse one frame: event kind (default `message`) and the list of data
payloads. -/
def parseFrame (frame : List Char) : List Char × List (List Char) :=
  (splitRN frame).foldl parseStep ("message".data, [])

/-- `datas.join('\n')`. -/
def joinNL (datas : List (List Char)) : List Char := List.intercalate ['\n'] datas

/-- Processing of one parsed frame in `lunaChatStream`
(`src/llm/lunacore.js`): on `event: error` the fallback is yielded (with
no `return`, so control falls through); on `event: done` the generator
returns, discarding the payload; otherwise a non-empty payload is
yielded.  Returns the yielded fragments and whether the generator
returned. -/
def processFrame (frame : List Char) : List (List Char) × Bool :=
  let ps := parseFrame frame
  let payload := joinNL ps.2
  let frags := if ps.1 = "error".data then [fallbackMessage] else []
  if ps.1 = "done".data then (frags, true)
  else (frags ++ (if payload.isEmpty then [] else [payload]), false)

/-- `buf.indexOf('\n\n')`: position of the first blank-line separator,
`none` mirroring `-1`. -/
def findBlank : List Char → Option Nat
  | [] => none
  | [_] => none
  | c :: d :: rest =>
    if c = '\n' ∧ d = '\n' then some 0
    else (findBlank (d :: rest)).map (fun i => i + 1)

/-- The frame loop of `lunaChatStream`: while a blank line is present,
split off the frame before it, process it, and continue with the rest;
a trailing partial frame (no blank line) is discarded at stream end.
Fuel is the buffer length (each iteration consumes at least two
characters). -/
def lunaRelayAux : Nat → List Char → List (List Char)
  | 0, _ => []
  | fuel + 1, buf =>
    match findBlank buf with
    | none => []
    | some sep =>
      let pr := processFrame (buf.take sep)
      if pr.2 then pr.1 else pr.1 ++ lunaRelayAux fuel (buf.drop (sep + 2))

/-- The fragment sequence produced by `lunaChatStream`
(`src/llm/lunacore.js`) over a complete byte stream.  The generator
accumulates decoded chunks in `buf` and processes every complete frame,
so the fragments depend only on the concatenated stream text. -/
def lunaChatStream (stream : List Char) : List (List Char) :=
  lunaRelayAux stream.length stream

end Lunacore

namespace LunacoreOld

/-- The frame loop of the older `lunaChatStream` in
`src/unnamed/part_000`, which differs from `src/llm/lunacore.js` only on
`event: error`: it executes `throw new Error(payload || 'stream error')`.
Returns the fragments yielded before termination, paired with
`some errorPayload` when the generator threw (the raw exception escaping
the relay) and `none` when it finished normally. -/
def lunaRelayAux : Nat → List Char → List (List Char) × Option (List Char)
  | 0, _ => ([], none)
  | fuel + 1, buf =>
    match Lunacore.findBlank buf with
    | none => ([], none)
    | some sep =>
      let ps := Lunacore.parseFrame (buf.take sep)
      let payload := Lunacore.joinNL ps.2
      if ps.1 = "error".data then
        ([], some (if payload.isEmpty then "stream error".data else payload))
      else if ps.1 = "done".data then ([], none)
      else
        let rest := lunaRelayAux fuel (buf.drop (sep + 2))
        ((if payload.isEmpty then [] else [payload]) ++ rest.1, rest.2)

/-- Fragment sequence and escaped exception of the `src/unnamed/part_000`
variant of `lunaChatStream` over a complete byte stream. -/
def lunaChatStream (stream : List Char) : List (List Char) × Option (List Char) :=
  lunaRelayAux stream.length stream

end LunacoreOld

/-- The error stream of the specification: `event: error\ndata: boom\n\n`. -/
def errStream : List Char := "event: error\ndata: boom\n\n".data

/-- The framing demo stream of the specification:
`event: message\ndata: hello\n\ndata:  world\n\nevent: done\n\n`. -/
def demoStream : List Char :=
  "event: message\ndata: hello\n\ndata:  world\n\nevent: done\n\n".data

/-- The demo stream with a payload on the `done` frame and a further
frame after it, to exhibit that `done` terminates immediately and
discards its payload. -/
def demoStreamExtra : List Char :=
  "event: message\ndata: hello\n\ndata:  world\n\nevent: done\ndata: tail\n\ndata: after\n\n".data

/-- A single frame with two data lines (`data: a` and `data:  b`), whose
payloads are joined with a newline after the one-space strip. -/
def dataJoinStream : List Char := "data: a\ndata:  b\n\n".data

namespace Scheduler

/-- A calendar timestamp `(year, month, day, hour, minute, second, ms)`.
Luxon `DateTime` values enter the reminder pipeline only through their
calendar fields and their instant order, which for real calendar data is
the lexicographic order on these fields. -/
structure Ts where
  year : Nat
  month : Nat
  day : Nat
  hour : Nat
  minute : Nat
  second : Nat
  ms : Nat
deriving DecidableEq

/-- Field-width validity for the fixed ISO rendering: each field fits its
zero-padded digit width (luxon renders years above 9999 in an expanded
six-digit form, outside this model's scope). -/
def Ts.WF (t : Ts) : Prop :=
  t.year < 10000 ∧ t.month < 100 ∧ t.day < 100 ∧ t.hour < 100 ∧ t.minute < 100 ∧
    t.second < 100 ∧ t.ms < 1000

instance (t : Ts) : Decidable t.WF := by unfold Ts.WF; infer_instance

/-- Chronological (instant) comparison of timestamps: lexicographic on
the calendar fields.  Models luxon's `<` on `DateTime`s (which compares
epoch milliseconds). -/
def tsCmp (t u : Ts) : Ordering :=
  (compare t.year u.year).then ((compare t.month u.month).then ((compare t.day u.day).then
    ((compare t.hour u.hour).then ((compare t.minute u.minute).then
      ((compare t.second u.second).then (compare t.ms u.ms))))))

/-- Two zero-padded decimal digits, as byte values. -/
def pad2 (n : Nat) : List Nat := [48 + n / 10, 48 + n % 10]

/-- Three zero-padded decimal digits, as byte values. -/
def pad3 (n : Nat) : List Nat := [48 + n / 100, 48 + n / 10 % 10, 48 + n % 10]

/-- Four zero-padded decimal digits, as byte values. -/
def pad4 (n : Nat) : List Nat := [48 + n / 1000, 48 + n / 100 % 10, 48 + n / 10 % 10, 48 + n % 10]

/-- luxon's `toISO()` on a UTC-zoned `DateTime`: the fixed 24-byte format
`YYYY-MM-DDTHH:mm:ss.SSSZ` (separator bytes: `-` 45, `T` 84, `:` 58,
`.` 46, `Z` 90).  Modelled from the code: both `dt.toUTC().toISO()` in
the `remind` handler and `DateTime.utc().toISO()` in the scheduler tick
render through this same fixed-width formatter. -/
def isoBytes (t : Ts) : List Nat :=
  pad4 t.year ++ [45] ++ pad2 t.month ++ [45] ++ pad2 t.day ++ [84] ++ pad2 t.hour ++
    [58] ++ pad2 t.minute ++ [58] ++ pad2 t.second ++ [46] ++ pad3 t.ms ++ [90]

/-- SQLite BINARY collation on TEXT values: bytewise three-way compare
(`memcmp`, shorter prefix first). -/
def bytesCmp : List Nat → List Nat → Ordering
  | [], [] => .eq
  | [], _ :: _ => .lt
  | _ :: _, [] => .gt
  | a :: as, b :: bs => (compare a b).then (bytesCmp as bs)

/-- SQLite `x <= y` on TEXT values under the BINARY collation. -/
def bytesLe (a b : List Nat) : Bool := bytesCmp a b ≠ .gt

/-- One row of the `reminders` table (`src/index.js` schema); the
`delivered` INTEGER 0/1 column is modelled as `Bool`. -/
structure Reminder where
  id : Nat
  user_id : String
  channel_id : String
  guild_id : Option String
  text : String
  run_at_iso : List Nat
  delivered : Bool
  created_at_iso : List Nat
deriving DecidableEq

/-- `insertReminder`: `INSERT INTO reminders (user_id, channel_id,
guild_id, text, run_at_iso, delivered, created_at_iso) VALUES
(?, ?, ?, ?, ?, 0, ?)` — the `delivered` column is the SQL literal 0;
`id` is the fresh AUTOINCREMENT key. -/
def insertReminder (tbl : List Reminder) (id : Nat) (user channel : String)
    (guild : Option String) (tx : String) (runAt created : List Nat) : List Reminder :=
  tbl ++ [⟨id, user, channel, guild, tx, runAt, false, created⟩]

/-- `dueReminders`: `SELECT * FROM reminders WHERE delivered=0 AND
run_at_iso <= ? ORDER BY run_at_iso ASC`. -/
def dueReminders (nowIso : List Nat) (tbl : List Reminder) : List Reminder :=
  (tbl.filter (fun r => !r.delivered && bytesLe r.run_at_iso nowIso)).mergeSort
    (fun a b => bytesLe a.run_at_iso b.run_at_iso)

/-- A row with its `delivered` flag set (the effect of
`SET delivered=1` on one row). -/
def markRow (r : Reminder) : Reminder := { r with delivered := true }

/-- `markDelivered`: `UPDATE reminders SET delivered=1 WHERE id=?`. -/
def markDelivered (id : Nat) (tbl : List Reminder) : List Reminder :=
  tbl.map (fun r => if r.id = id then markRow r else r)

/-- One scheduler tick (the `setInterval` body of `startScheduler` in
`src/index.js`): query the due rows at `nowIso`, then attempt delivery of
each in query order; `ok r = true` means `channel.send` succeeded and the
row is passed to `markDelivered`, while a failed send leaves the table
untouched (the `catch` only logs).  Returns the updated table and the
queried due rows (the delivery attempts). -/
def tick (nowIso : List Nat) (ok : Reminder → Bool) (tbl : List Reminder) :
    List Reminder × List Reminder :=
  let rows := dueReminders nowIso tbl
  (rows.foldl (fun t r => if ok r then markDelivered r.id t else t) tbl, rows)

/-- The reminders-table operations the program performs: the `remind`
command's insert and the scheduler's `markDelivered`.  No statement in
the program deletes from `reminders` (`delStmt` targets the `kv` table
only). -/
inductive StoreStep : List Reminder → List Reminder → Prop
  | insert (tbl : List Reminder) (id : Nat) (user channel : String) (guild : Option String)
      (tx : String) (runAt created : List Nat) :
      StoreStep tbl (insertReminder tbl id user channel guild tx runAt created)
  | mark (tbl : List Reminder) (id : Nat) : StoreStep tbl (markDelivered id tbl)

/-- Outcomes of the `remind` slash-command handler. -/
inductive RemindOutcome
  | invalidFormat
  | pastTime
  | saved
deriving DecidableEq

/-- The `remind` command handler (`src/index.js`): `parsed` is the luxon
`DateTime.fromFormat` result (`none` when `!dt.isValid`), `nowT` is
`DateTime.now()` in the user's zone; the handler rejects an invalid
parse, rejects `dt < now` (strictly before `now`), and otherwise inserts
a row with `run_at_iso = dt.toUTC().toISO()` and `delivered = 0`. -/
def remindCommand (parsed : Option Ts) (nowT : Ts) (tbl : List Reminder) (id : Nat)
    (user channel : String) (guild : Option String) (tx : String) (created : List Nat) :
    RemindOutcome × List Reminder :=
  match parsed with
  | none => (.invalidFormat, tbl)
  | some dt =>
    if tsCmp dt nowT = .lt then (.pastTime, tbl)
    else (.saved, insertReminder tbl id user channel guild tx (isoBytes dt) created)

end Scheduler

namespace Ollama

theorem chunkAux_nil (fuel m : Nat) : chunkAux fuel [] m = [] := by
  cases fuel <;> simp [chunkAux]

theorem chunkAux_flatten (fuel : Nat) :
    ∀ (rem : List Char) (m : Nat), (chunkAux fuel rem m).flatten = rem := by
  induction fuel with
  | zero =>
    intro rem m
    rcases rem with _ | ⟨c, cs⟩ <;> simp [chunkAux]
  | succ fuel ih =>
    intro rem m
    by_cases h : m < rem.length
    · simp [chunkAux, h, ih]
    · simp only [chunkAux]
      rw [if_neg h]
      rcases rem with _ | ⟨c, cs⟩ <;> simp

theorem chunkAux_congr (m : Nat) (hm : 0 < m) :
    ∀ (n : Nat) (rem : List Char), rem.length ≤ n →
      ∀ fuel fuel', rem.length ≤ fuel → rem.length ≤ fuel' →
        chunkAux fuel rem m = chunkAux fuel' rem m := by
  intro n
  induction n with
  | zero =>
    intro rem hrem fuel fuel' _ _
    have : rem = [] := List.length_eq_zero.mp (Nat.le_zero.mp hrem)
    subst this
    rw [chunkAux_nil, chunkAux_nil]
  | succ n ih =>
    intro rem hrem fuel fuel' hf hf'
    by_cases hlen : m < rem.length
    · obtain ⟨f, rfl⟩ : ∃ f, fuel = f + 1 := ⟨fuel - 1, by omega⟩
      obtain ⟨f', rfl⟩ : ∃ f', fuel' = f' + 1 := ⟨fuel' - 1, by omega⟩
      simp only [chunkAux, if_pos hlen]
      congr 1
      exact ih (rem.drop m) (by simp; omega) f f' (by simp; omega) (by simp; omega)
    · cases fuel <;> cases fuel' <;> simp [chunkAux, hlen]

theorem chunkAux_step {m : Nat} (hm : 0 < m) {rem : List Char} (hlen : m < rem.length)
    {fuel : Nat} (hf : rem.length ≤ fuel) :
    chunkAux fuel rem m = rem.take m :: chunkAux (rem.drop m).length (rem.drop m) m := by
  obtain ⟨f, rfl⟩ : ∃ f, fuel = f + 1 := ⟨fuel - 1, by omega⟩
  simp only [chunkAux, if_pos hlen]
  congr 1
  exact chunkAux_congr m hm ((rem.drop m).length) (rem.drop m) le_rfl f (rem.drop m).length
    (by simp; omega) le_rfl

theorem chunkAux_base {m : Nat} {rem : List Char} (hlen : ¬ m < rem.length) (fuel : Nat) :
    chunkAux fuel rem m = if rem.isEmpty then [] else [rem] := by
  cases fuel <;> simp [chunkAux, hlen]

/-- The imported chunker on any input of length 5000 with `maxLen = 1900`
produces exactly the three fixed-position slices. -/
theorem chunk_at_5000 (t : List Char) (h : t.length = 5000) :
    chunkDiscordMessage t 1900 =
      [t.take 1900, (t.drop 1900).take 1900, (t.drop 1900).drop 1900] := by
  unfold chunkDiscordMessage
  rw [chunkAux_step (by norm_num) (by omega) le_rfl]
  rw [chunkAux_step (by norm_num) (by simp [List.length_drop]; omega) le_rfl]
  rw [chunkAux_base (by simp [List.length_drop]; omega)]
  rw [if_neg (by simp [List.isEmpty_iff, ← List.length_eq_zero, List.length_drop]; omega)]

end Ollama

namespace OllamaLib

theorem lastIdxGo_replicate (p : Char) (ps : List Char) (hp : p ≠ 'a') (limit k : Nat) :
    ∀ (j : Nat) (best : Option Nat),
      lastIdxGo (p :: ps) limit (List.replicate k 'a') j best = best := by
  induction k with
  | zero => intro j best; simp [lastIdxGo]
  | succ k ih =>
    intro j best
    rw [List.replicate_succ]
    simp only [lastIdxGo]
    by_cases hj : limit < j
    · rw [if_pos hj]
    · rw [if_neg hj]
      have hpa : (p == 'a') = false := beq_eq_false_iff_ne.mpr hp
      have hpre : (p :: ps).isPrefixOf ('a' :: List.replicate k 'a') = false := by
        simp [List.isPrefixOf, hpa]
      simp only [hpre, Bool.false_eq_true, if_false]
      exact ih (j + 1) best

theorem cutIndex_replicate (k limit : Nat) : cutIndex (List.replicate k 'a') limit = -1 := by
  have h2 : lastIdxGo ['\n', '\n'] limit (List.replicate k 'a') 0 none = none :=
    lastIdxGo_replicate '\n' ['\n'] (by decide) limit k 0 none
  have h1 : lastIdxGo ['\n'] limit (List.replicate k 'a') 0 none = none :=
    lastIdxGo_replicate '\n' [] (by decide) limit k 0 none
  have h0 : lastIdxGo [' '] limit (List.replicate k 'a') 0 none = none :=
    lastIdxGo_replicate ' ' [] (by decide) limit k 0 none
  simp [cutIndex, lastIndexOf, h2, h1, h0]

theorem dropWhile_isJsWs_replicate (k : Nat) :
    (List.replicate k 'a').dropWhile isJsWs = List.replicate k 'a' := by
  cases k with
  | zero => rfl
  | succ k =>
    rw [List.replicate_succ, List.dropWhile_cons]
    rw [if_neg (show ¬ (isJsWs 'a' = true) by decide)]

theorem jsTrimStart_replicate (k : Nat) :
    jsTrimStart (List.replicate k 'a') = List.replicate k 'a' := by
  unfold jsTrimStart
  exact dropWhile_isJsWs_replicate k

theorem jsTrimEnd_replicate (k : Nat) :
    jsTrimEnd (List.replicate k 'a') = List.replicate k 'a' := by
  unfold jsTrimEnd
  rw [List.reverse_replicate, dropWhile_isJsWs_replicate, List.reverse_replicate]

theorem splitParasAux_no_nl (fuel : Nat) :
    ∀ s : List Char, (∀ c ∈ s, c ≠ '\n') → splitParasAux fuel s = [s] := by
  induction fuel with
  | zero => intro s _; rfl
  | succ fuel ih =>
    intro s h
    rcases s with _ | ⟨c, rest⟩
    · rfl
    · have hc : c ≠ '\n' := h c (List.mem_cons_self c rest)
      simp only [splitParasAux]
      rw [if_neg (by simp [hc])]
      rw [ih rest (fun d hd => h d (List.mem_cons_of_mem c hd))]

theorem splitParas_replicate (k : Nat) :
    splitParas (List.replicate k 'a') = [List.replicate k 'a'] :=
  splitParasAux_no_nl _ _ (fun c hc => by rw [(List.mem_replicate.mp hc).2]; decide)

theorem pushSmartAux_step_hard (maxLen fuel : Nat) (seg : List Char) (chunks : List (List Char))
    (hlen : maxLen < seg.length) (hcut : cutIndex seg maxLen = -1) :
    pushSmartAux maxLen (fuel + 1) seg chunks =
      pushSmartAux maxLen fuel (jsTrimStart (seg.drop maxLen))
        (chunks ++ [jsTrimEnd (seg.take maxLen)]) := by
  simp only [pushSmartAux, if_pos hlen, hcut]
  rw [if_pos (show (-1 : Int) < ((floor06 maxLen : Nat) : Int) by omega)]
  rw [Int.toNat_natCast]

theorem pushSmartAux_base (maxLen fuel : Nat) (seg : List Char) (chunks : List (List Char))
    (hlen : ¬ maxLen < seg.length) :
    pushSmartAux maxLen fuel seg chunks = if seg.isEmpty then chunks else chunks ++ [seg] := by
  cases fuel <;> simp [pushSmartAux, hlen]

theorem pushSmart_replicate_step (fuel k : Nat) (chunks : List (List Char)) (h : 1900 < k) :
    pushSmartAux 1900 (fuel + 1) (List.replicate k 'a') chunks =
      pushSmartAux 1900 fuel (List.replicate (k - 1900) 'a')
        (chunks ++ [List.replicate 1900 'a']) := by
  rw [pushSmartAux_step_hard _ _ _ _ (by simp [List.length_replicate]; omega)
    (cutIndex_replicate _ _)]
  rw [List.take_replicate, List.drop_replicate, jsTrimStart_replicate, jsTrimEnd_replicate]
  rw [show (1900 : Nat) ⊓ k = 1900 by omega]

theorem smart_chunk_replicate_5000 :
    chunkDiscordMessage (List.replicate 5000 'a') 1900 =
      [List.replicate 1900 'a', List.replicate 1900 'a', List.replicate 1200 'a'] := by
  unfold chunkDiscordMessage
  rw [if_neg (by simp [List.isEmpty_iff])]
  rw [splitParas_replicate]
  simp only [List.foldl_cons, List.foldl_nil, List.length_replicate]
  rw [show (5000 : Nat) = 4999 + 1 from rfl, pushSmart_replicate_step _ _ _ (by norm_num)]
  rw [show (5000 : Nat) - 1900 = 3100 from rfl]
  rw [show (4999 : Nat) = 4998 + 1 from rfl, pushSmart_replicate_step _ _ _ (by norm_num)]
  rw [show (3100 : Nat) - 1900 = 1200 from rfl]
  rw [pushSmartAux_base _ _ _ _ (by rw [List.length_replicate]; omega)]
  rw [if_neg (by simp [List.isEmpty_iff, List.replicate_eq_nil_iff])]
  simp only [List.nil_append, List.singleton_append, List.cons_append, List.append_nil]

end OllamaLib

/-- C10: for the chunking function exported from `src/llm/ollama.js` (the
one the dispatcher imports), for every input text and every `maxLen ≥ 1`,
concatenating the returned segments in order reproduces the input text
exactly — no character is trimmed at any cut point. -/
theorem C10_chunker_concat (text : List Char) (maxLen : Nat) (h : 1 ≤ maxLen) :
    (Ollama.chunkDiscordMessage text maxLen).flatten = text :=
  Ollama.chunkAux_flatten text.length text maxLen

/-- Witness for C10 at a concrete input. -/
theorem C10_chunker_concat_witness :
    1 ≤ 3 ∧ (Ollama.chunkDiscordMessage ("hello world".data) 3).flatten = "hello world".data :=
  ⟨by decide, C10_chunker_concat ("hello world".data) 3 (by decide)⟩

/-- C6 counterexample: the chunker imported by the dispatcher
(`src/llm/ollama.js`) applied to the empty string returns the empty
sequence — zero elements, not one empty segment. -/
theorem C6_counterexample :
    (Ollama.chunkDiscordMessage [] 1900).length ≠ 1 ∧
    Ollama.chunkDiscordMessage [] 1900 = [] := by
  constructor
  · decide
  · rfl

/-- C6 amended: the imported chunker (`src/llm/ollama.js`) returns the
empty sequence on empty input (its caller substitutes a placeholder when
indexing the first element), while the extended variant in
`src/unnamed/part_001` returns exactly one empty segment. -/
theorem C6_amended :
    (∀ m : Nat, Ollama.chunkDiscordMessage [] m = []) ∧
    (∀ m : Nat, OllamaLib.chunkDiscordMessage [] m = [[]]) :=
  ⟨fun _ => rfl, fun _ => rfl⟩

/-- C5 counterexample: at the 5000-character all-letter input
`replicate 5000 'a'` (no newlines), both chunkers produce exactly 3
segments none exceeding 1900 characters, but the final character of the
first segment is `'a'`, not a space — there is no word-boundary cut. -/
theorem C5_counterexample :
    (Ollama.chunkDiscordMessage (List.replicate 5000 'a') 1900).length = 3 ∧
    (∀ c ∈ Ollama.chunkDiscordMessage (List.replicate 5000 'a') 1900, c.length ≤ 1900) ∧
    (Ollama.chunkDiscordMessage (List.replicate 5000 'a') 1900).headI.getLast? = some 'a' ∧
    (OllamaLib.chunkDiscordMessage (List.replicate 5000 'a') 1900).length = 3 ∧
    (OllamaLib.chunkDiscordMessage (List.replicate 5000 'a') 1900).headI.getLast? = some 'a' ∧
    ('a' : Char) ≠ ' ' := by
  have hrep : ∀ n : Nat, (List.replicate (n + 1) 'a').getLast? = some 'a' := by
    intro n
    rw [List.replicate_succ', List.getLast?_concat]
  have hn : Ollama.chunkDiscordMessage (List.replicate 5000 'a') 1900 =
      [List.replicate 1900 'a', List.replicate 1900 'a', List.replicate 1200 'a'] := by
    rw [Ollama.chunk_at_5000 _ (by rw [List.length_replicate]), List.take_replicate,
      List.drop_replicate, List.take_replicate, List.drop_replicate]
    rw [show (1900 : Nat) ⊓ 5000 = 1900 by omega, show (5000 : Nat) - 1900 = 3100 from rfl,
      show (1900 : Nat) ⊓ 3100 = 1900 by omega, show (3100 : Nat) - 1900 = 1200 from rfl]
  refine ⟨by rw [hn]; rfl, ?_, ?_, ?_, ?_, by decide⟩
  · rw [hn]
    intro c hc
    simp only [List.mem_cons, List.not_mem_nil, or_false] at hc
    rcases hc with rfl | rfl | rfl
    · rw [List.length_replicate]
    · rw [List.length_replicate]
    · rw [List.length_replicate]; omega
  · rw [hn]
    exact hrep 1899
  · rw [OllamaLib.smart_chunk_replicate_5000]
    rfl
  · rw [OllamaLib.smart_chunk_replicate_5000]
    exact hrep 1899

/-- C5 amended: for the chunker the dispatcher imports
(`src/llm/ollama.js`), every 5000-character newline-free input with
`maxLen = 1900` yields exactly 3 segments, none exceeding 1900
characters, cut at the fixed positions 1900 and 3800; the cut falls at a
space only if the input happens to have one there, and is otherwise a
mid-word split (the variant in `src/unnamed/part_001` prefers word
boundaries but trims the boundary whitespace, so its segments do not end
with a space either). -/
theorem C5_chunk5000_amended (t : List Char) (h : t.length = 5000) (hnl : ('\n' : Char) ∉ t) :
    Ollama.chunkDiscordMessage t 1900 =
      [t.take 1900, (t.drop 1900).take 1900, (t.drop 1900).drop 1900] ∧
    (Ollama.chunkDiscordMessage t 1900).length = 3 ∧
    ∀ c ∈ Ollama.chunkDiscordMessage t 1900, c.length ≤ 1900 := by
  have he := Ollama.chunk_at_5000 t h
  refine ⟨he, by rw [he]; rfl, ?_⟩
  rw [he]
  intro c hc
  simp only [List.mem_cons, List.not_mem_nil, or_false] at hc
  rcases hc with rfl | rfl | rfl <;> (simp only [List.length_take, List.length_drop]; omega)

/-- Witness for C5's amended claim at a concrete input. -/
theorem C5_chunk5000_amended_witness :
    (List.replicate 5000 'b').length = 5000 ∧ ('\n' : Char) ∉ List.replicate 5000 'b' ∧
    (Ollama.chunkDiscordMessage (List.replicate 5000 'b') 1900).length = 3 :=
  ⟨by rw [List.length_replicate], by intro hmem; exact absurd (List.mem_replicate.mp hmem).2 (by decide),
    (C5_chunk5000_amended _ (by rw [List.length_replicate])
      (by intro hmem; exact absurd (List.mem_replicate.mp hmem).2 (by decide))).2.1⟩

namespace Lunacore

theorem findBlank_le : ∀ (l : List Char) (n : Nat), findBlank l = some n → n + 2 ≤ l.length := by
  intro l
  induction l with
  | nil => intro n h; simp [findBlank] at h
  | cons c rest ih =>
    intro n h
    rcases rest with _ | ⟨d, rest'⟩
    · simp [findBlank] at h
    · simp only [findBlank] at h
      split at h
      · cases h
        simp
      · rcases hm : findBlank (d :: rest') with _ | m
        · rw [hm] at h
          simp at h
        · rw [hm] at h
          simp at h
          have := ih m hm
          simp at this ⊢
          omega

theorem lunaRelayAux_congr : ∀ (n : Nat) (buf : List Char), buf.length ≤ n →
    ∀ fuel fuel', buf.length ≤ fuel → buf.length ≤ fuel' →
      lunaRelayAux fuel buf = lunaRelayAux fuel' buf := by
  intro n
  induction n with
  | zero =>
    intro buf h fuel fuel' _ _
    have hb : buf = [] := List.length_eq_zero.mp (Nat.le_zero.mp h)
    subst hb
    cases fuel <;> cases fuel' <;> simp [lunaRelayAux, findBlank]
  | succ n ih =>
    intro buf h fuel fuel' hf hf'
    rcases hfb : findBlank buf with _ | sep
    · cases fuel <;> cases fuel' <;> simp [lunaRelayAux, hfb]
    · have hsep := findBlank_le buf sep hfb
      obtain ⟨f, rfl⟩ : ∃ f, fuel = f + 1 := ⟨fuel - 1, by omega⟩
      obtain ⟨f', rfl⟩ : ∃ f', fuel' = f' + 1 := ⟨fuel' - 1, by omega⟩
      simp only [lunaRelayAux, hfb]
      have hrec := ih (buf.drop (sep + 2)) (by simp [List.length_drop]; omega) f f'
        (by simp [List.length_drop]; omega) (by simp [List.length_drop]; omega)
      rw [hrec]

theorem lunaChatStream_step (f rest : List Char)
    (hfb : findBlank (f ++ '\n' :: '\n' :: rest) = some f.length) :
    lunaChatStream (f ++ '\n' :: '\n' :: rest) =
      if (processFrame f).2 then (processFrame f).1
      else (processFrame f).1 ++ lunaChatStream rest := by
  have hlen : (f ++ '\n' :: '\n' :: rest).length = f.length + 2 + rest.length := by
    simp [List.length_append]
    omega
  unfold lunaChatStream
  obtain ⟨g, hg⟩ : ∃ g, (f ++ '\n' :: '\n' :: rest).length = g + 1 :=
    ⟨(f ++ '\n' :: '\n' :: rest).length - 1, by omega⟩
  rw [hg]
  simp only [lunaRelayAux, hfb]
  rw [List.take_left]
  rw [List.drop_append 2]
  have hd : List.drop 2 ('\n' :: '\n' :: rest) = rest := rfl
  rw [hd]
  rw [lunaRelayAux_congr rest.length rest le_rfl g rest.length (by omega) le_rfl]

theorem foldl_parseStep_event : ∀ (ls : List (List Char)) (ev : List Char)
    (ds : List (List Char)), (∀ l ∈ ls, evTag.isPrefixOf l = false) →
    (List.foldl parseStep (ev, ds) ls).1 = ev := by
  intro ls
  induction ls with
  | nil => intro ev ds _; rfl
  | cons l ls ih =>
    intro ev ds h
    have hl : evTag.isPrefixOf l = false := h l (List.mem_cons_self _ _)
    have h1 : ¬ (evTag.isPrefixOf l = true) := by simp [hl]
    simp only [List.foldl_cons, parseStep, if_neg h1]
    by_cases h2 : dataTag.isPrefixOf l = true
    · rw [if_pos h2]
      exact ih ev _ (fun x hx => h x (List.mem_cons_of_mem _ hx))
    · rw [if_neg h2]
      exact ih ev ds (fun x hx => h x (List.mem_cons_of_mem _ hx))

theorem parseStep_data (acc : List Char × List (List Char)) (p : List Char) :
    parseStep acc (dataTag ++ p) = (acc.1, acc.2 ++ [stripOneSpace p]) := by
  have h1 : evTag.isPrefixOf (dataTag ++ p) = false := by
    simp [evTag, dataTag, List.isPrefixOf]
  have h2 : dataTag.isPrefixOf (dataTag ++ p) = true := by
    simp [List.isPrefixOf_iff_prefix]
  simp only [parseStep, h1, Bool.false_eq_true, if_false, h2, if_true]
  rw [show (5 : Nat) = dataTag.length from rfl, List.drop_left]

end Lunacore

/-- C3: the relay (`lunaChatStream`, `src/llm/lunacore.js`) splits the
byte stream into frames at blank lines, defaults the event kind to
`message`, joins the data payloads with newlines after stripping exactly
one optional leading space each, yields a non-empty joined payload as one
fragment, and terminates immediately on `event: done`, discarding that
frame's payload; in particular the specification's demo stream yields
exactly `"hello"` and `" world"` in order and then terminates. -/
theorem C3_relay_framing :
    Lunacore.lunaChatStream demoStream = ["hello".data, " world".data] ∧
    Lunacore.lunaChatStream demoStreamExtra = ["hello".data, " world".data] ∧
    Lunacore.lunaChatStream dataJoinStream = [('a' :: '\n' :: ' ' :: 'b' :: [])] ∧
    (∀ f rest : List Char, Lunacore.findBlank (f ++ '\n' :: '\n' :: rest) = some f.length →
      Lunacore.lunaChatStream (f ++ '\n' :: '\n' :: rest) =
        if (Lunacore.processFrame f).2 then (Lunacore.processFrame f).1
        else (Lunacore.processFrame f).1 ++ Lunacore.lunaChatStream rest) ∧
    (∀ f : List Char, (∀ l ∈ Lunacore.splitRN f, Lunacore.evTag.isPrefixOf l = false) →
      (Lunacore.parseFrame f).1 = "message".data) ∧
    (∀ (acc : List Char × List (List Char)) (p : List Char),
      Lunacore.parseStep acc (Lunacore.dataTag ++ p) =
        (acc.1, acc.2 ++ [Lunacore.stripOneSpace p])) ∧
    (∀ p : List Char, Lunacore.stripOneSpace (' ' :: p) = p) := by
  refine ⟨by decide, by decide, by decide, Lunacore.lunaChatStream_step,
    fun f h => Lunacore.foldl_parseStep_event (Lunacore.splitRN f) _ [] h,
    Lunacore.parseStep_data, fun p => rfl⟩

/-- Witness for C3's general clauses at a concrete frame. -/
theorem C3_relay_framing_witness :
    (∀ l ∈ Lunacore.splitRN ("data: x".data), Lunacore.evTag.isPrefixOf l = false) ∧
    (Lunacore.parseFrame ("data: x".data)).1 = "message".data :=
  ⟨by decide, C3_relay_framing.2.2.2.2.1 ("data: x".data) (by decide)⟩

/-- C1 counterexample: on the stream `event: error\ndata: boom\n\n` the
relay in `src/llm/lunacore.js` yields two fragments, the second being the
frame's raw payload `boom` (there is no `return` after the fallback
`yield`), and the older variant in `src/unnamed/part_000` propagates the
raw exception with payload `boom` past the relay boundary. -/
theorem C1_counterexample :
    (Lunacore.lunaChatStream errStream).length = 2 ∧
    "boom".data ∈ Lunacore.lunaChatStream errStream ∧
    LunacoreOld.lunaChatStream errStream = ([], some ("boom".data)) := by
  refine ⟨by decide, by decide, by decide⟩

/-- C1 amended: on an `event: error` frame the relay of
`src/llm/lunacore.js` yields the user-facing fallback fragment but does
not terminate: it additionally yields the frame's payload when non-empty
and continues consuming the stream (terminating only at stream end or on
a later `done`); no raw exception propagates.  In particular the stream
`event: error\ndata: boom\n\n` yields exactly the fallback followed by
`boom`. -/
theorem C1_error_relay_amended :
    Lunacore.lunaChatStream errStream = [Lunacore.fallbackMessage, "boom".data] ∧
    (∀ f rest : List Char,
      Lunacore.findBlank (f ++ '\n' :: '\n' :: rest) = some f.length →
      (Lunacore.parseFrame f).1 = "error".data →
      Lunacore.lunaChatStream (f ++ '\n' :: '\n' :: rest) =
        Lunacore.fallbackMessage ::
          ((if (Lunacore.joinNL (Lunacore.parseFrame f).2).isEmpty then []
            else [Lunacore.joinNL (Lunacore.parseFrame f).2]) ++
            Lunacore.lunaChatStream rest)) := by
  constructor
  · decide
  · intro f rest hfb hev
    rw [Lunacore.lunaChatStream_step f rest hfb]
    have hpf : Lunacore.processFrame f =
        ([Lunacore.fallbackMessage] ++
          (if (Lunacore.joinNL (Lunacore.parseFrame f).2).isEmpty then []
           else [Lunacore.joinNL (Lunacore.parseFrame f).2]), false) := by
      simp only [Lunacore.processFrame]
      rw [hev]
      rw [if_pos rfl]
      rw [if_neg (by decide : ¬ ("error".data = "done".data))]
    rw [hpf]
    simp

/-- Witness for C1's amended claim at the specification's error frame. -/
theorem C1_error_relay_amended_witness :
    Lunacore.findBlank ("event: error\ndata: boom".data ++ '\n' :: '\n' :: []) = some 23 ∧
    (Lunacore.parseFrame ("event: error\ndata: boom".data)).1 = "error".data ∧
    Lunacore.lunaChatStream ("event: error\ndata: boom".data ++ '\n' :: '\n' :: []) =
      Lunacore.fallbackMessage ::
        ((if (Lunacore.joinNL (Lunacore.parseFrame ("event: error\ndata: boom".data)).2).isEmpty
          then []
          else [Lunacore.joinNL (Lunacore.parseFrame ("event: error\ndata: boom".data)).2]) ++
          Lunacore.lunaChatStream []) :=
  ⟨by decide, by decide,
    C1_error_relay_amended.2 ("event: error\ndata: boom".data) [] (by decide) (by decide)⟩

namespace Scheduler

theorem ordThen_assoc (o₁ o₂ o₃ : Ordering) : (o₁.then o₂).then o₃ = o₁.then (o₂.then o₃) := by
  cases o₁ <;> rfl

theorem ordThen_eq_right (o : Ordering) : o.then .eq = o := by
  cases o <;> rfl

theorem ordSwap_then (o₁ o₂ : Ordering) : (o₁.then o₂).swap = o₁.swap.then o₂.swap := by
  cases o₁ <;> rfl

theorem bytesCmp_append : ∀ (a c : List Nat), a.length = c.length →
    ∀ b d, bytesCmp (a ++ b) (c ++ d) = (bytesCmp a c).then (bytesCmp b d) := by
  intro a
  induction a with
  | nil =>
    intro c hc b d
    have : c = [] := List.length_eq_zero.mp hc.symm
    subst this
    rfl
  | cons x xs ih =>
    intro c hc b d
    rcases c with _ | ⟨y, ys⟩
    · simp at hc
    · simp only [List.cons_append, bytesCmp, List.append_eq]
      rw [ih ys (by simpa using hc) b d, ordThen_assoc]

theorem bytesCmp_sep (x : Nat) (b d : List Nat) :
    bytesCmp ([x] ++ b) ([x] ++ d) = bytesCmp b d := by
  simp only [List.singleton_append, bytesCmp, Nat.compare_eq_eq.mpr rfl]
  rfl

theorem bytesCmp_swap : ∀ a b : List Nat, (bytesCmp a b).swap = bytesCmp b a := by
  intro a
  induction a with
  | nil => intro b; cases b <;> rfl
  | cons x xs ih =>
    intro b
    rcases b with _ | ⟨y, ys⟩
    · rfl
    · simp only [bytesCmp]
      rw [ordSwap_then, Nat.compare_swap, ih ys]

theorem bytesCmp_le_trans : ∀ a b c : List Nat,
    bytesCmp a b ≠ .gt → bytesCmp b c ≠ .gt → bytesCmp a c ≠ .gt := by
  intro a
  induction a with
  | nil =>
    intro b c _ _
    cases c <;> simp [bytesCmp]
  | cons x xs ih =>
    intro b c h1 h2
    rcases b with _ | ⟨y, ys⟩
    · exact absurd rfl h1
    · rcases c with _ | ⟨z, zs⟩
      · exact absurd rfl h2
      · simp only [bytesCmp] at h1 h2 ⊢
        rcases hxy : compare x y with _ | _ | _ <;> rw [hxy] at h1
        · -- x < y
          have hxylt := Nat.compare_eq_lt.mp hxy
          rcases hyz : compare y z with _ | _ | _ <;> rw [hyz] at h2
          · have := Nat.compare_eq_lt.mp hyz
            rw [Nat.compare_eq_lt.mpr (by omega)]
            simp [Ordering.then]
          · have := Nat.compare_eq_eq.mp hyz
            rw [Nat.compare_eq_lt.mpr (by omega)]
            simp [Ordering.then]
          · exact absurd rfl h2
        · -- x = y
          have hxyeq := Nat.compare_eq_eq.mp hxy
          simp only [Ordering.then] at h1
          rcases hyz : compare y z with _ | _ | _ <;> rw [hyz] at h2
          · have := Nat.compare_eq_lt.mp hyz
            rw [Nat.compare_eq_lt.mpr (by omega)]
            simp [Ordering.then]
          · have := Nat.compare_eq_eq.mp hyz
            simp only [Ordering.then] at h2
            rw [Nat.compare_eq_eq.mpr (by omega)]
            simp only [Ordering.then]
            exact ih ys zs h1 h2
          · exact absurd rfl h2
        · exact absurd rfl h1

theorem bytesLe_trans (a b c : List Nat) (h1 : bytesLe a b = true) (h2 : bytesLe b c = true) :
    bytesLe a c = true := by
  simp only [bytesLe, decide_eq_true_eq] at h1 h2 ⊢
  exact bytesCmp_le_trans a b c h1 h2

theorem bytesLe_total (a b : List Nat) : (bytesLe a b || bytesLe b a) = true := by
  simp only [bytesLe, Bool.or_eq_true, decide_eq_true_eq]
  by_cases h : bytesCmp a b = .gt
  · right
    rw [← bytesCmp_swap a b, h]
    simp [Ordering.swap]
  · left
    exact h

end Scheduler

namespace Scheduler

theorem pad2_cmp {n m : Nat} (hn : n < 100) (hm : m < 100) :
    bytesCmp (pad2 n) (pad2 m) = compare n m := by
  show (compare (48 + n / 10) (48 + m / 10)).then
    ((compare (48 + n % 10) (48 + m % 10)).then .eq) = compare n m
  rw [ordThen_eq_right]
  rcases Nat.lt_trichotomy n m with h | h | h
  · rw [Nat.compare_eq_lt.mpr h]
    have hd : n / 10 < m / 10 ∨ (n / 10 = m / 10 ∧ n % 10 < m % 10) := by omega
    rcases hd with h1 | ⟨h1, h2⟩
    · rw [Nat.compare_eq_lt.mpr (by omega)]
      rfl
    · rw [Nat.compare_eq_eq.mpr (by omega), Nat.compare_eq_lt.mpr (by omega)]
      rfl
  · subst h
    rw [Nat.compare_eq_eq.mpr rfl, Nat.compare_eq_eq.mpr rfl, Nat.compare_eq_eq.mpr rfl]
    rfl
  · rw [Nat.compare_eq_gt.mpr h]
    have hd : m / 10 < n / 10 ∨ (n / 10 = m / 10 ∧ m % 10 < n % 10) := by omega
    rcases hd with h1 | ⟨h1, h2⟩
    · rw [Nat.compare_eq_gt.mpr (by omega)]
      rfl
    · rw [Nat.compare_eq_eq.mpr (by omega), Nat.compare_eq_gt.mpr (by omega)]
      rfl

theorem pad3_cmp {n m : Nat} (hn : n < 1000) (hm : m < 1000) :
    bytesCmp (pad3 n) (pad3 m) = compare n m := by
  show (compare (48 + n / 100) (48 + m / 100)).then
    ((compare (48 + n / 10 % 10) (48 + m / 10 % 10)).then
      ((compare (48 + n % 10) (48 + m % 10)).then .eq)) = compare n m
  rw [ordThen_eq_right]
  rcases Nat.lt_trichotomy n m with h | h | h
  · rw [Nat.compare_eq_lt.mpr h]
    have hd : n / 100 < m / 100 ∨ (n / 100 = m / 100 ∧ (n / 10 % 10 < m / 10 % 10 ∨
        (n / 10 % 10 = m / 10 % 10 ∧ n % 10 < m % 10))) := by omega
    rcases hd with h1 | ⟨h1, h2 | ⟨h2, h3⟩⟩
    · rw [Nat.compare_eq_lt.mpr (by omega)]
      rfl
    · rw [Nat.compare_eq_eq.mpr (by omega), Nat.compare_eq_lt.mpr (by omega)]
      rfl
    · rw [Nat.compare_eq_eq.mpr (by omega), Nat.compare_eq_eq.mpr (by omega),
        Nat.compare_eq_lt.mpr (by omega)]
      rfl
  · subst h
    rw [Nat.compare_eq_eq.mpr rfl, Nat.compare_eq_eq.mpr rfl, Nat.compare_eq_eq.mpr rfl,
      Nat.compare_eq_eq.mpr rfl]
    rfl
  · rw [Nat.compare_eq_gt.mpr h]
    have hd : m / 100 < n / 100 ∨ (n / 100 = m / 100 ∧ (m / 10 % 10 < n / 10 % 10 ∨
        (n / 10 % 10 = m / 10 % 10 ∧ m % 10 < n % 10))) := by omega
    rcases hd with h1 | ⟨h1, h2 | ⟨h2, h3⟩⟩
    · rw [Nat.compare_eq_gt.mpr (by omega)]
      rfl
    · rw [Nat.compare_eq_eq.mpr (by omega), Nat.compare_eq_gt.mpr (by omega)]
      rfl
    · rw [Nat.compare_eq_eq.mpr (by omega), Nat.compare_eq_eq.mpr (by omega),
        Nat.compare_eq_gt.mpr (by omega)]
      rfl

theorem pad4_cmp {n m : Nat} (hn : n < 10000) (hm : m < 10000) :
    bytesCmp (pad4 n) (pad4 m) = compare n m := by
  show (compare (48 + n / 1000) (48 + m / 1000)).then
    ((compare (48 + n / 100 % 10) (48 + m / 100 % 10)).then
      ((compare (48 + n / 10 % 10) (48 + m / 10 % 10)).then
        ((compare (48 + n % 10) (48 + m % 10)).then .eq))) = compare n m
  rw [ordThen_eq_right]
  rcases Nat.lt_trichotomy n m with h | h | h
  · rw [Nat.compare_eq_lt.mpr h]
    have hd : n / 1000 < m / 1000 ∨ (n / 1000 = m / 1000 ∧ (n / 100 % 10 < m / 100 % 10 ∨
        (n / 100 % 10 = m / 100 % 10 ∧ (n / 10 % 10 < m / 10 % 10 ∨
          (n / 10 % 10 = m / 10 % 10 ∧ n % 10 < m % 10))))) := by omega
    rcases hd with h1 | ⟨h1, h2 | ⟨h2, h3 | ⟨h3, h4⟩⟩⟩
    · rw [Nat.compare_eq_lt.mpr (by omega)]
      rfl
    · rw [Nat.compare_eq_eq.mpr (by omega), Nat.compare_eq_lt.mpr (by omega)]
      rfl
    · rw [Nat.compare_eq_eq.mpr (by omega), Nat.compare_eq_eq.mpr (by omega),
        Nat.compare_eq_lt.mpr (by omega)]
      rfl
    · rw [Nat.compare_eq_eq.mpr (by omega), Nat.compare_eq_eq.mpr (by omega),
        Nat.compare_eq_eq.mpr (by omega), Nat.compare_eq_lt.mpr (by omega)]
      rfl
  · subst h
    rw [Nat.compare_eq_eq.mpr rfl, Nat.compare_eq_eq.mpr rfl, Nat.compare_eq_eq.mpr rfl,
      Nat.compare_eq_eq.mpr rfl, Nat.compare_eq_eq.mpr rfl]
    rfl
  · rw [Nat.compare_eq_gt.mpr h]
    have hd : m / 1000 < n / 1000 ∨ (n / 1000 = m / 1000 ∧ (m / 100 % 10 < n / 100 % 10 ∨
        (n / 100 % 10 = m / 100 % 10 ∧ (m / 10 % 10 < n / 10 % 10 ∨
          (n / 10 % 10 = m / 10 % 10 ∧ m % 10 < n % 10))))) := by omega
    rcases hd with h1 | ⟨h1, h2 | ⟨h2, h3 | ⟨h3, h4⟩⟩⟩
    · rw [Nat.compare_eq_gt.mpr (by omega)]
      rfl
    · rw [Nat.compare_eq_eq.mpr (by omega), Nat.compare_eq_gt.mpr (by omega)]
      rfl
    · rw [Nat.compare_eq_eq.mpr (by omega), Nat.compare_eq_eq.mpr (by omega),
        Nat.compare_eq_gt.mpr (by omega)]
      rfl
    · rw [Nat.compare_eq_eq.mpr (by omega), Nat.compare_eq_eq.mpr (by omega),
        Nat.compare_eq_eq.mpr (by omega), Nat.compare_eq_gt.mpr (by omega)]
      rfl

theorem isoBytes_cmp {t u : Ts} (ht : t.WF) (hu : u.WF) :
    bytesCmp (isoBytes t) (isoBytes u) = tsCmp t u := by
  obtain ⟨ht1, ht2, ht3, ht4, ht5, ht6, ht7⟩ := ht
  obtain ⟨hu1, hu2, hu3, hu4, hu5, hu6, hu7⟩ := hu
  unfold isoBytes tsCmp
  simp only [List.append_assoc]
  rw [bytesCmp_append (pad4 t.year) (pad4 u.year) rfl, pad4_cmp ht1 hu1,
    bytesCmp_sep, bytesCmp_append (pad2 t.month) (pad2 u.month) rfl, pad2_cmp ht2 hu2,
    bytesCmp_sep, bytesCmp_append (pad2 t.day) (pad2 u.day) rfl, pad2_cmp ht3 hu3,
    bytesCmp_sep, bytesCmp_append (pad2 t.hour) (pad2 u.hour) rfl, pad2_cmp ht4 hu4,
    bytesCmp_sep, bytesCmp_append (pad2 t.minute) (pad2 u.minute) rfl, pad2_cmp ht5 hu5,
    bytesCmp_sep, bytesCmp_append (pad2 t.second) (pad2 u.second) rfl, pad2_cmp ht6 hu6,
    bytesCmp_sep, bytesCmp_append (pad3 t.ms) (pad3 u.ms) rfl, pad3_cmp ht7 hu7,
    show bytesCmp [90] [90] = Ordering.eq from rfl, ordThen_eq_right]

end Scheduler

namespace Scheduler

theorem markRow_id (r : Reminder) : (markRow r).id = r.id := rfl

theorem markRow_markRow (r : Reminder) : markRow (markRow r) = markRow r := rfl

theorem tick_fold_eq (ok : Reminder → Bool) :
    ∀ (ds tbl : List Reminder),
      ds.foldl (fun t r => if ok r then markDelivered r.id t else t) tbl =
        tbl.map (fun x => if ds.any (fun r => ok r && r.id == x.id) then markRow x else x) := by
  intro ds
  induction ds with
  | nil =>
    intro tbl
    simp
  | cons r ds ih =>
    intro tbl
    simp only [List.foldl_cons]
    by_cases hr : ok r = true
    · rw [if_pos hr, ih]
      unfold markDelivered
      rw [List.map_map]
      apply List.map_congr_left
      intro x _
      simp only [Function.comp]
      by_cases hid : x.id = r.id
      · have hbeq : (r.id == x.id) = true := by simp [hid]
        rw [if_pos hid]
        simp only [markRow_id, markRow_markRow]
        have hall : (r :: ds).any (fun q => ok q && q.id == x.id) = true := by
          simp [List.any_cons, hr, hbeq]
        rw [if_pos hall]
        simp
      · have hbeq : (r.id == x.id) = false := by
          simp only [beq_eq_false_iff_ne]
          omega
        rw [if_neg hid]
        have hcons : (r :: ds).any (fun q => ok q && q.id == x.id) =
            ds.any (fun q => ok q && q.id == x.id) := by
          simp [List.any_cons, hbeq]
        rw [hcons]
    · rw [if_neg hr, ih]
      apply List.map_congr_left
      intro x _
      have hcons : (r :: ds).any (fun q => ok q && q.id == x.id) =
          ds.any (fun q => ok q && q.id == x.id) := by
        simp [List.any_cons, Bool.eq_false_iff.mpr hr]
      rw [hcons]

theorem dueReminders_mem (nowIso : List Nat) (tbl : List Reminder) (r : Reminder) :
    r ∈ dueReminders nowIso tbl ↔
      r ∈ tbl ∧ (!r.delivered && bytesLe r.run_at_iso nowIso) = true := by
  unfold dueReminders
  rw [List.mem_mergeSort, List.mem_filter]

theorem tick_table_eq (nowIso : List Nat) (ok : Reminder → Bool) (tbl : List Reminder)
    (hnd : (tbl.map Reminder.id).Nodup) :
    (tick nowIso ok tbl).1 =
      tbl.map (fun r => if (!r.delivered && bytesLe r.run_at_iso nowIso) && ok r
        then markRow r else r) := by
  show (dueReminders nowIso tbl).foldl _ tbl = _
  rw [tick_fold_eq]
  apply List.map_congr_left
  intro x hx
  have hcond : (dueReminders nowIso tbl).any (fun r => ok r && r.id == x.id) =
      ((!x.delivered && bytesLe x.run_at_iso nowIso) && ok x) := by
    rw [Bool.eq_iff_iff]
    constructor
    · intro h
      obtain ⟨r, hrmem, hrp⟩ := List.any_eq_true.mp h
      simp only [Bool.and_eq_true] at hrp
      obtain ⟨hok, hid⟩ := hrp
      obtain ⟨hrtbl, hrdue⟩ := (dueReminders_mem _ _ _).mp hrmem
      have hre : r = x :=
        List.inj_on_of_nodup_map hnd hrtbl hx (by simpa using hid)
      subst hre
      simp [hrdue, hok]
    · intro h
      simp only [Bool.and_eq_true] at h
      obtain ⟨hdue, hok⟩ := h
      refine List.any_eq_true.mpr ⟨x, (dueReminders_mem _ _ _).mpr ⟨hx, ?_⟩, ?_⟩
      · simp only [Bool.and_eq_true]
        exact hdue
      · simp [hok]
  rw [hcond]

end Scheduler

namespace Scheduler

theorem storeStep_length (s t : List Reminder) (h : StoreStep s t) : s.length ≤ t.length := by
  cases h with
  | insert id user channel guild tx runAt created => simp [insertReminder]
  | mark id => simp [markDelivered]

theorem storeStep_getElem (s t : List Reminder) (h : StoreStep s t) (i : Nat)
    (hi : i < s.length) : t[i]? = s[i]? ∨ t[i]? = s[i]?.map markRow := by
  cases h with
  | insert id user channel guild tx runAt created =>
    left
    unfold insertReminder
    exact List.getElem?_append_left hi
  | mark id =>
    unfold markDelivered
    rw [List.getElem?_map]
    rcases hsi : s[i]? with _ | v
    · left
      rfl
    · by_cases hid : v.id = id
      · right
        simp [hid]
      · left
        simp [hid]

theorem storeStep_new_false (s t : List Reminder) (h : StoreStep s t) (j : Nat)
    (hj : s.length ≤ j) (r : Reminder) (hr : t[j]? = some r) : r.delivered = false := by
  cases h with
  | insert id user channel guild tx runAt created =>
    unfold insertReminder at hr
    rw [List.getElem?_append_right hj] at hr
    rcases hd : j - s.length with _ | k
    · rw [hd] at hr
      simp at hr
      rw [← hr]
    · rw [hd] at hr
      simp at hr
  | mark id =>
    unfold markDelivered at hr
    rw [List.getElem?_eq_none (by simpa using hj)] at hr
    cases hr

end Scheduler

/-- C7: under the program's reminders-table operations (the `remind`
command's insert and the scheduler's `markDelivered`), rows are never
deleted and keep all their fields except possibly `delivered`, the
`delivered` flag never reverses from true to false (so it transitions
false→true at most once), and every newly inserted row has
`delivered = false`. -/
theorem C7_reminders_invariant :
    ∀ s t : List Scheduler.Reminder, Relation.ReflTransGen Scheduler.StoreStep s t →
      (s.length ≤ t.length ∧
        (∀ i, i < s.length → t[i]? = s[i]? ∨ t[i]? = s[i]?.map Scheduler.markRow) ∧
        (∀ (i : Nat) (r r' : Scheduler.Reminder), s[i]? = some r → t[i]? = some r' →
          r.delivered = true → r'.delivered = true)) ∧
      (∀ u v : List Scheduler.Reminder, Scheduler.StoreStep u v →
        ∀ j, u.length ≤ j → ∀ r : Scheduler.Reminder, v[j]? = some r →
          r.delivered = false) := by
  intro s t h
  have main : s.length ≤ t.length ∧
      (∀ i, i < s.length → t[i]? = s[i]? ∨ t[i]? = s[i]?.map Scheduler.markRow) := by
    induction h with
    | refl => exact ⟨le_rfl, fun i _ => Or.inl rfl⟩
    | tail hab hbc ih =>
      obtain ⟨hlen, hmid⟩ := ih
      have hlen2 := Scheduler.storeStep_length _ _ hbc
      refine ⟨le_trans hlen hlen2, ?_⟩
      intro i hi
      have hib : i < _ := lt_of_lt_of_le hi hlen
      rcases Scheduler.storeStep_getElem _ _ hbc i hib with h2 | h2 <;>
        rcases hmid i hi with h1 | h1
      · left
        rw [h2, h1]
      · right
        rw [h2, h1]
      · right
        rw [h2, h1]
      · right
        rw [h2, h1]
        rcases hsi : s[i]? with _ | v
        · rfl
        · simp [Scheduler.markRow_markRow]
  obtain ⟨hlen, hmid⟩ := main
  refine ⟨⟨hlen, hmid, ?_⟩, fun u v huv => Scheduler.storeStep_new_false u v huv⟩
  intro i r r' h1 h2 h3
  have his : i < s.length := by
    by_contra hc
    rw [List.getElem?_eq_none (by omega)] at h1
    cases h1
  rcases hmid i his with hb | hb
  · rw [h1] at hb
    rw [hb] at h2
    cases h2
    exact h3
  · rw [h1] at hb
    rw [hb] at h2
    cases h2
    rfl

/-- Witness for C7: the empty table and a single insert step. -/
theorem C7_reminders_invariant_witness :
    (([] : List Scheduler.Reminder).length ≤
        (Scheduler.insertReminder [] 1 "u" "c" none "hi" [] []).length ∧
      (∀ i, i < ([] : List Scheduler.Reminder).length →
        (Scheduler.insertReminder [] 1 "u" "c" none "hi" [] [])[i]? =
          ([] : List Scheduler.Reminder)[i]? ∨
        (Scheduler.insertReminder [] 1 "u" "c" none "hi" [] [])[i]? =
          ([] : List Scheduler.Reminder)[i]?.map Scheduler.markRow) ∧
      (∀ (i : Nat) (r r' : Scheduler.Reminder), ([] : List Scheduler.Reminder)[i]? = some r →
        (Scheduler.insertReminder [] 1 "u" "c" none "hi" [] [])[i]? = some r' →
        r.delivered = true → r'.delivered = true)) ∧
    (∀ u v : List Scheduler.Reminder, Scheduler.StoreStep u v →
      ∀ j, u.length ≤ j → ∀ r : Scheduler.Reminder, v[j]? = some r →
        r.delivered = false) :=
  C7_reminders_invariant [] (Scheduler.insertReminder [] 1 "u" "c" none "hi" [] [])
    (Relation.ReflTransGen.single (Scheduler.StoreStep.insert [] 1 "u" "c" none "hi" [] []))

/-- C2: a scheduler tick at instant `nowIso` attempts delivery of exactly
the reminders with `delivered = false` and `run_at_iso <= nowIso`
(bytewise, which coincides with chronological order for the stored
format), in ascending `run_at_iso` order; each reminder whose delivery
succeeds is marked `delivered = true`, each one whose delivery fails is
left untouched, and every other row (not yet due, or already delivered)
is untouched. -/
theorem C2_tick_spec (nowIso : List Nat) (ok : Scheduler.Reminder → Bool)
    (tbl : List Scheduler.Reminder) (hnd : (tbl.map Scheduler.Reminder.id).Nodup) :
    ((Scheduler.tick nowIso ok tbl).2).Perm
      (tbl.filter (fun r => !r.delivered && Scheduler.bytesLe r.run_at_iso nowIso)) ∧
    ((Scheduler.tick nowIso ok tbl).2).Pairwise
      (fun a b => Scheduler.bytesLe a.run_at_iso b.run_at_iso = true) ∧
    (∀ r ∈ (Scheduler.tick nowIso ok tbl).2,
      r.delivered = false ∧ Scheduler.bytesLe r.run_at_iso nowIso = true) ∧
    (Scheduler.tick nowIso ok tbl).1 =
      tbl.map (fun r =>
        if (!r.delivered && Scheduler.bytesLe r.run_at_iso nowIso) && ok r
        then Scheduler.markRow r else r) := by
  have h2 : (Scheduler.tick nowIso ok tbl).2 = Scheduler.dueReminders nowIso tbl := rfl
  refine ⟨?_, ?_, ?_, Scheduler.tick_table_eq nowIso ok tbl hnd⟩
  · rw [h2]
    exact List.mergeSort_perm _ _
  · rw [h2]
    unfold Scheduler.dueReminders
    exact List.sorted_mergeSort
      (fun a b c hab hbc =>
        Scheduler.bytesLe_trans a.run_at_iso b.run_at_iso c.run_at_iso hab hbc)
      (fun a b => Scheduler.bytesLe_total a.run_at_iso b.run_at_iso) _
  · rw [h2]
    intro r hr
    obtain ⟨_, hdue⟩ := (Scheduler.dueReminders_mem _ _ _).mp hr
    simp only [Bool.and_eq_true, Bool.not_eq_true'] at hdue
    exact hdue

/-- Witness for C2 at a concrete one-row table. -/
theorem C2_tick_spec_witness :
    (([(⟨1, "u", "c", none, "x",
        Scheduler.isoBytes ⟨2025, 1, 1, 0, 0, 0, 0⟩, false, []⟩ : Scheduler.Reminder)].map
          Scheduler.Reminder.id).Nodup) ∧
    (∀ r ∈ (Scheduler.tick (Scheduler.isoBytes ⟨2026, 1, 1, 0, 0, 0, 0⟩) (fun _ => true)
        [(⟨1, "u", "c", none, "x",
          Scheduler.isoBytes ⟨2025, 1, 1, 0, 0, 0, 0⟩, false, []⟩ : Scheduler.Reminder)]).2,
      r.delivered = false ∧
        Scheduler.bytesLe r.run_at_iso (Scheduler.isoBytes ⟨2026, 1, 1, 0, 0, 0, 0⟩) = true) :=
  ⟨by decide,
    (C2_tick_spec (Scheduler.isoBytes ⟨2026, 1, 1, 0, 0, 0, 0⟩) (fun _ => true)
      [(⟨1, "u", "c", none, "x",
        Scheduler.isoBytes ⟨2025, 1, 1, 0, 0, 0, 0⟩, false, []⟩ : Scheduler.Reminder)]
      (by decide)).2.2.1⟩

/-- C8: a reminder whose delivery succeeded during a tick is excluded
from the due query of any subsequent tick at the same instant (its row
now has `delivered = true`), so the second tick performs zero delivery
attempts for it. -/
theorem C8_tick_idempotent (nowIso : List Nat) (ok ok2 : Scheduler.Reminder → Bool)
    (tbl : List Scheduler.Reminder) (hnd : (tbl.map Scheduler.Reminder.id).Nodup) :
    ∀ r ∈ (Scheduler.tick nowIso ok tbl).2, ok r = true →
      ∀ x ∈ (Scheduler.tick nowIso ok2 ((Scheduler.tick nowIso ok tbl).1)).2, x.id ≠ r.id := by
  intro r hr hok x hx
  have h2 : (Scheduler.tick nowIso ok tbl).2 = Scheduler.dueReminders nowIso tbl := rfl
  rw [h2] at hr
  obtain ⟨hrtbl, hrdue⟩ := (Scheduler.dueReminders_mem _ _ _).mp hr
  have htbl1 := Scheduler.tick_table_eq nowIso ok tbl hnd
  have h2' : (Scheduler.tick nowIso ok2 ((Scheduler.tick nowIso ok tbl).1)).2 =
      Scheduler.dueReminders nowIso ((Scheduler.tick nowIso ok tbl).1) := rfl
  rw [h2', htbl1] at hx
  obtain ⟨hxmem, hxdue⟩ := (Scheduler.dueReminders_mem _ _ _).mp hx
  obtain ⟨y, hytbl, hyx⟩ := List.mem_map.mp hxmem
  intro heq
  have hyid : y.id = x.id := by
    rw [← hyx]
    by_cases hc : ((!y.delivered && Scheduler.bytesLe y.run_at_iso nowIso) && ok y) = true
    · rw [if_pos hc]
      rfl
    · rw [if_neg hc]
  have hyr : y = r := List.inj_on_of_nodup_map hnd hytbl hrtbl (by rw [hyid, heq])
  subst hyr
  have hcond : ((!y.delivered && Scheduler.bytesLe y.run_at_iso nowIso) && ok y) = true := by
    rw [hrdue, hok]
    rfl
  rw [← hyx, if_pos hcond] at hxdue
  simp [Scheduler.markRow] at hxdue

/-- Witness for C8 at a concrete one-row table. -/
theorem C8_tick_idempotent_witness :
    (([(⟨1, "u", "c", none, "x",
        Scheduler.isoBytes ⟨2025, 1, 1, 0, 0, 0, 0⟩, false, []⟩ : Scheduler.Reminder)].map
          Scheduler.Reminder.id).Nodup) ∧
    (∀ r ∈ (Scheduler.tick (Scheduler.isoBytes ⟨2026, 1, 1, 0, 0, 0, 0⟩) (fun _ => true)
        [(⟨1, "u", "c", none, "x",
          Scheduler.isoBytes ⟨2025, 1, 1, 0, 0, 0, 0⟩, false, []⟩ : Scheduler.Reminder)]).2,
      (fun _ => true) r = true →
      ∀ x ∈ (Scheduler.tick (Scheduler.isoBytes ⟨2026, 1, 1, 0, 0, 0, 0⟩) (fun _ => true)
        ((Scheduler.tick (Scheduler.isoBytes ⟨2026, 1, 1, 0, 0, 0, 0⟩) (fun _ => true)
          [(⟨1, "u", "c", none, "x",
            Scheduler.isoBytes ⟨2025, 1, 1, 0, 0, 0, 0⟩, false, []⟩ : Scheduler.Reminder)]).1)).2,
        x.id ≠ r.id) :=
  ⟨by decide,
    C8_tick_idempotent (Scheduler.isoBytes ⟨2026, 1, 1, 0, 0, 0, 0⟩) (fun _ => true)
      (fun _ => true)
      [(⟨1, "u", "c", none, "x",
        Scheduler.isoBytes ⟨2025, 1, 1, 0, 0, 0, 0⟩, false, []⟩ : Scheduler.Reminder)]
      (by decide)⟩

/-- C9: the fixed-width UTC ISO rendering stored by the `remind` command
(`dt.toUTC().toISO()`) and produced for the scheduler's `now`
(`DateTime.utc().toISO()`) makes the due query's bytewise (BINARY
collation) comparison `run_at_iso <= nowISO` coincide with chronological
order, so the query's filter selects exactly the chronologically due,
undelivered reminders. -/
theorem C9_iso_lex_chronological (tsOf : Scheduler.Reminder → Scheduler.Ts)
    (nowT : Scheduler.Ts) (tbl : List Scheduler.Reminder)
    (hWF : ∀ r ∈ tbl, (tsOf r).WF) (hnow : nowT.WF)
    (hts : ∀ r ∈ tbl, r.run_at_iso = Scheduler.isoBytes (tsOf r)) :
    (∀ t u : Scheduler.Ts, t.WF → u.WF →
      Scheduler.bytesCmp (Scheduler.isoBytes t) (Scheduler.isoBytes u) = Scheduler.tsCmp t u) ∧
    tbl.filter (fun r =>
        !r.delivered && Scheduler.bytesLe r.run_at_iso (Scheduler.isoBytes nowT)) =
      tbl.filter (fun r =>
        !r.delivered && decide (Scheduler.tsCmp (tsOf r) nowT ≠ .gt)) := by
  refine ⟨fun t u ht hu => Scheduler.isoBytes_cmp ht hu, ?_⟩
  apply List.filter_congr
  intro r hr
  rw [hts r hr]
  have hb : Scheduler.bytesLe (Scheduler.isoBytes (tsOf r)) (Scheduler.isoBytes nowT) =
      decide (Scheduler.tsCmp (tsOf r) nowT ≠ .gt) := by
    simp only [Scheduler.bytesLe]
    rw [Scheduler.isoBytes_cmp (hWF r hr) hnow]
  rw [hb]

/-- Witness for C9 at a concrete one-row table. -/
theorem C9_iso_lex_chronological_witness :
    (∀ r ∈ [(⟨1, "u", "c", none, "x",
        Scheduler.isoBytes ⟨2025, 6, 15, 10, 30, 0, 0⟩, false, []⟩ : Scheduler.Reminder)],
      (Scheduler.Ts.mk 2025 6 15 10 30 0 0).WF) ∧
    (Scheduler.Ts.mk 2025 6 15 10 31 0 0).WF ∧
    (∀ r ∈ [(⟨1, "u", "c", none, "x",
        Scheduler.isoBytes ⟨2025, 6, 15, 10, 30, 0, 0⟩, false, []⟩ : Scheduler.Reminder)],
      r.run_at_iso = Scheduler.isoBytes ⟨2025, 6, 15, 10, 30, 0, 0⟩) ∧
    ([(⟨1, "u", "c", none, "x",
        Scheduler.isoBytes ⟨2025, 6, 15, 10, 30, 0, 0⟩, false, []⟩ : Scheduler.Reminder)].filter
          (fun r => !r.delivered &&
            Scheduler.bytesLe r.run_at_iso
              (Scheduler.isoBytes ⟨2025, 6, 15, 10, 31, 0, 0⟩)) =
      [(⟨1, "u", "c", none, "x",
        Scheduler.isoBytes ⟨2025, 6, 15, 10, 30, 0, 0⟩, false, []⟩ : Scheduler.Reminder)].filter
          (fun r => !r.delivered &&
            decide (Scheduler.tsCmp ((fun _ => (⟨2025, 6, 15, 10, 30, 0, 0⟩ : Scheduler.Ts)) r)
              (⟨2025, 6, 15, 10, 31, 0, 0⟩ : Scheduler.Ts) ≠ .gt))) :=
  ⟨by decide, by decide, by decide,
    (C9_iso_lex_chronological (fun _ => (⟨2025, 6, 15, 10, 30, 0, 0⟩ : Scheduler.Ts))
      (⟨2025, 6, 15, 10, 31, 0, 0⟩ : Scheduler.Ts)
      [(⟨1, "u", "c", none, "x",
        Scheduler.isoBytes ⟨2025, 6, 15, 10, 30, 0, 0⟩, false, []⟩ : Scheduler.Reminder)]
      (by decide) (by decide) (by decide)).2⟩

/-- C4 counterexample: a valid local time whose resulting instant equals
the current instant exactly (not strictly after it) is accepted and
persisted by the `remind` handler — the code rejects only `dt < now`,
strictly-before. -/
theorem C4_counterexample :
    (Scheduler.remindCommand (some ⟨2025, 6, 15, 10, 30, 0, 0⟩) ⟨2025, 6, 15, 10, 30, 0, 0⟩
        [] 1 "u" "c" none "x" []).1 = .saved ∧
    (Scheduler.remindCommand (some ⟨2025, 6, 15, 10, 30, 0, 0⟩) ⟨2025, 6, 15, 10, 30, 0, 0⟩
        [] 1 "u" "c" none "x" []).1 ≠ .pastTime ∧
    (Scheduler.remindCommand (some ⟨2025, 6, 15, 10, 30, 0, 0⟩) ⟨2025, 6, 15, 10, 30, 0, 0⟩
        [] 1 "u" "c" none "x" []).2 ≠ [] := by
  refine ⟨by decide, by decide, by decide⟩

/-- C4 amended: the `remind` handler fails with the past-time condition
and persists nothing exactly when the resulting instant is strictly
before the current instant; an instant equal to `now` (or later) is
accepted and persisted with `delivered = false`. -/
theorem C4_pasttime_amended (dt nowT : Scheduler.Ts) (tbl : List Scheduler.Reminder)
    (id : Nat) (user channel : String) (guild : Option String) (tx : String)
    (created : List Nat) :
    (Scheduler.tsCmp dt nowT = .lt →
      Scheduler.remindCommand (some dt) nowT tbl id user channel guild tx created =
        (.pastTime, tbl)) ∧
    (Scheduler.tsCmp dt nowT ≠ .lt →
      Scheduler.remindCommand (some dt) nowT tbl id user channel guild tx created =
        (.saved, Scheduler.insertReminder tbl id user channel guild tx
          (Scheduler.isoBytes dt) created)) := by
  constructor
  · intro h
    simp only [Scheduler.remindCommand]
    rw [if_pos h]
  · intro h
    simp only [Scheduler.remindCommand]
    rw [if_neg h]

/-- Witness for C4's amended claim: a strictly-past instant is rejected
with nothing persisted. -/
theorem C4_pasttime_amended_witness :
    Scheduler.tsCmp ⟨2025, 6, 15, 10, 29, 0, 0⟩ ⟨2025, 6, 15, 10, 30, 0, 0⟩ = .lt ∧
    Scheduler.remindCommand (some ⟨2025, 6, 15, 10, 29, 0, 0⟩) ⟨2025, 6, 15, 10, 30, 0, 0⟩
        [] 1 "u" "c" none "x" [] = (.pastTime, []) :=
  ⟨by decide,
    (C4_pasttime_amended ⟨2025, 6, 15, 10, 29, 0, 0⟩ ⟨2025, 6, 15, 10, 30, 0, 0⟩
      [] 1 "u" "c" none "x" []).1 (by decide)⟩
